import Mathlib

/-!
# Least-Cost Feed Formulation Solver — verification development

A shallow embedding of `functions/src/lib/feed-solver.ts` (and of the zod
schemas in the shared package that describe its input and output shapes).
JavaScript numbers are modelled by exact rationals `ℚ`; `undefined`/optional
fields by `Option`; the thrown `Error` by `Except String`; the `new Date()`
timestamp by an explicit clock argument `now : ℤ` (milliseconds).

`Array.prototype.sort` with the comparator `(a, b) => a.unitPrice - b.unitPrice`
is, by the ECMAScript specification, a stable ascending sort; it is modelled by
a stable insertion sort `sortByUnitPrice`.
-/

/-- `NutritionalValues` from the shared zod schema: eight optional
non-negative numbers. An absent key means "no data", not zero. -/
structure NutritionalValues where
  protein : Option ℚ := none
  energy : Option ℚ := none
  fiber : Option ℚ := none
  fat : Option ℚ := none
  calcium : Option ℚ := none
  phosphorus : Option ℚ := none
  dryMatter : Option ℚ := none
  ash : Option ℚ := none
deriving Repr, DecidableEq

/-- `IngredientConstraints` from the shared zod schema. -/
structure IngredientConstraints where
  minPercentage : Option ℚ := none
  maxPercentage : Option ℚ := none
  minAmount : Option ℚ := none
  maxAmount : Option ℚ := none
deriving Repr, DecidableEq

/-- The inline ingredient shape of `FeedOptimizationInputSchema.ingredients`. -/
structure SolverIngredient where
  id : String
  name : String
  unitPrice : ℚ
  nutritionalValues : NutritionalValues
  constraints : Option IngredientConstraints := none
deriving Repr, DecidableEq

/-- `FeedOptimizationInput` (the solver's input). `targetAnimal` is kept as a
string; the zod enum restricts it to seven species. -/
structure FeedOptimizationInput where
  targetAnimal : String
  totalAmount : ℚ
  unit : Option String := none
  ingredients : List SolverIngredient
  targetNutrition : Option NutritionalValues := none
  maxIngredients : Option Nat := none
deriving Repr, DecidableEq

/-- `FeedRationComponent` (one ingredient of the optimized ration). -/
structure FeedRationComponent where
  ingredientId : String
  ingredientName : String
  percentage : ℚ
  amount : ℚ
  cost : ℚ
deriving Repr, DecidableEq

/-- `FeedRation` (the solver's output). `optimizedAt` is the clock reading
passed in place of `new Date()`. -/
structure FeedRation where
  userId : String
  targetAnimal : String
  totalAmount : ℚ
  unit : String
  components : List FeedRationComponent
  totalCost : ℚ
  nutritionalValues : NutritionalValues
  optimizedAt : ℤ
deriving Repr, DecidableEq

/-- The enumerated nutrient keys of `NutritionalValues`. -/
inductive NutrientKey where
  | protein | energy | fiber | fat | calcium | phosphorus | dryMatter | ash
deriving Repr, DecidableEq

/-- Field access on `NutritionalValues` by key. -/
def NutritionalValues.get (nv : NutritionalValues) : NutrientKey → Option ℚ
  | .protein => nv.protein
  | .energy => nv.energy
  | .fiber => nv.fiber
  | .fat => nv.fat
  | .calcium => nv.calcium
  | .phosphorus => nv.phosphorus
  | .dryMatter => nv.dryMatter
  | .ash => nv.ash

/-- `DEFAULT_NUTRITIONAL_REQUIREMENTS[animal]`: the per-species default
requirement table of `feed-solver.ts` (`undefined` for other strings). -/
def DEFAULT_NUTRITIONAL_REQUIREMENTS (animal : String) : Option NutritionalValues :=
  if animal = "Dairy Cattle" then
    some { protein := some 16, energy := some (27/10), fiber := some 18,
           calcium := some (3/5), phosphorus := some (2/5) }
  else if animal = "Beef Cattle" then
    some { protein := some 12, energy := some (26/10), fiber := some 20,
           calcium := some (1/2), phosphorus := some (3/10) }
  else if animal = "Calf" then
    some { protein := some 20, energy := some 3, fiber := some 15,
           calcium := some (4/5), phosphorus := some (3/5) }
  else if animal = "Pig" then
    some { protein := some 18, energy := some (32/10), fiber := some 5,
           calcium := some (7/10), phosphorus := some (1/2) }
  else if animal = "Chicken" then
    some { protein := some 20, energy := some (31/10), fiber := some 4,
           calcium := some (9/10), phosphorus := some (7/10) }
  else if animal = "Sheep" then
    some { protein := some 14, energy := some (25/10), fiber := some 22,
           calcium := some (1/2), phosphorus := some (3/10) }
  else if animal = "Goat" then
    some { protein := some 15, energy := some (26/10), fiber := some 20,
           calcium := some (3/5), phosphorus := some (2/5) }
  else none

/-- The `{ percentage, nutritionalValues }` records that
`calculateNutritionalComposition` consumes. -/
structure CompEntry where
  percentage : ℚ
  nutritionalValues : NutritionalValues
deriving Repr, DecidableEq

/-- One pass of the `for (const component of components)` body of
`calculateNutritionalComposition`: add `value * factor` to each accumulator
key the component defines (`x || 0` on a number accumulator is `getD 0`). -/
def addComponent (nutrition : NutritionalValues) (component : CompEntry) : NutritionalValues :=
  let factor := component.percentage / 100
  let nv := component.nutritionalValues
  let nutrition := match nv.protein with
    | some v => { nutrition with protein := some (nutrition.protein.getD 0 + v * factor) }
    | none => nutrition
  let nutrition := match nv.energy with
    | some v => { nutrition with energy := some (nutrition.energy.getD 0 + v * factor) }
    | none => nutrition
  let nutrition := match nv.fiber with
    | some v => { nutrition with fiber := some (nutrition.fiber.getD 0 + v * factor) }
    | none => nutrition
  let nutrition := match nv.fat with
    | some v => { nutrition with fat := some (nutrition.fat.getD 0 + v * factor) }
    | none => nutrition
  let nutrition := match nv.calcium with
    | some v => { nutrition with calcium := some (nutrition.calcium.getD 0 + v * factor) }
    | none => nutrition
  let nutrition := match nv.phosphorus with
    | some v => { nutrition with phosphorus := some (nutrition.phosphorus.getD 0 + v * factor) }
    | none => nutrition
  let nutrition := match nv.dryMatter with
    | some v => { nutrition with dryMatter := some (nutrition.dryMatter.getD 0 + v * factor) }
    | none => nutrition
  let nutrition := match nv.ash with
    | some v => { nutrition with ash := some (nutrition.ash.getD 0 + v * factor) }
    | none => nutrition
  nutrition

/-- `calculateNutritionalComposition` of `feed-solver.ts`: fold the
weighted-sum accumulation over the component list, starting from `{}`. -/
def calculateNutritionalComposition (components : List CompEntry) : NutritionalValues :=
  components.foldl addComponent {}

/-- `meetsNutritionalRequirements` of `feed-solver.ts`: every floor given in
`requirements` (only the six keys the source checks) must be reached by the
composition, reading an absent composition value as 0. -/
def meetsNutritionalRequirements (composition requirements : NutritionalValues) : Bool :=
  (match requirements.protein with
    | some r => !decide (composition.protein.getD 0 < r)
    | none => true) &&
  (match requirements.energy with
    | some r => !decide (composition.energy.getD 0 < r)
    | none => true) &&
  (match requirements.fiber with
    | some r => !decide (composition.fiber.getD 0 < r)
    | none => true) &&
  (match requirements.fat with
    | some r => !decide (composition.fat.getD 0 < r)
    | none => true) &&
  (match requirements.calcium with
    | some r => !decide (composition.calcium.getD 0 < r)
    | none => true) &&
  (match requirements.phosphorus with
    | some r => !decide (composition.phosphorus.getD 0 < r)
    | none => true)

/-- One entry of the solver's working `solution` array. -/
structure SolEntry where
  id : String
  name : String
  percentage : ℚ
deriving Repr, DecidableEq

/-- The comparator `(a, b) => a.unitPrice - b.unitPrice` as the relation it
sorts by. -/
def priceLE (a b : SolverIngredient) : Prop := a.unitPrice ≤ b.unitPrice

instance : DecidableRel priceLE := fun a b =>
  inferInstanceAs (Decidable (a.unitPrice ≤ b.unitPrice))

instance : IsTotal SolverIngredient priceLE :=
  ⟨fun a b => le_total a.unitPrice b.unitPrice⟩

instance : IsTrans SolverIngredient priceLE :=
  ⟨fun _ _ _ h h' => le_trans h h'⟩

/-- `[...ingredients].sort((a, b) => a.unitPrice - b.unitPrice)`: the stable
ascending sort mandated by ECMAScript, modelled by stable insertion sort. -/
def sortByUnitPrice (l : List SolverIngredient) : List SolverIngredient :=
  List.insertionSort priceLE l

/-- Stands in for the `!` non-null assertion on
`selectedIngredients.find(...)`: never reached on the ids the solver
actually stores in its solution. -/
def dummyIngredient : SolverIngredient :=
  { id := "", name := "", unitPrice := 0, nutritionalValues := {} }

/-- `selectedIngredients.find((ing) => ing.id === s.id)!`. -/
def findIngredient (pool : List SolverIngredient) (id : String) : SolverIngredient :=
  (pool.find? (fun ing => ing.id == id)).getD dummyIngredient

/-- The constraint-clamping pass over the initial solution: for each index,
raise the percentage to `minPercentage` then cap it at `maxPercentage`
(whichever bounds are present). The source indexes `selectedIngredients[i]`
positionally, hence the `zipWith`. -/
def applyConstraintClamp (pool : List SolverIngredient) (sol : List SolEntry) :
    List SolEntry :=
  List.zipWith
    (fun s ing =>
      match ing.constraints with
      | some cs =>
        let p := match cs.minPercentage with
          | some m => max s.percentage m
          | none => s.percentage
        let p := match cs.maxPercentage with
          | some m => min p m
          | none => p
        { s with percentage := p }
      | none => s)
    sol pool

/-- `if (total > 0) solution = solution.map(s => ({...s, percentage:
(s.percentage / total) * 100}))` — the renormalization pattern the source
repeats after the initial clamp and after each adjustment round. -/
def normalize100 (sol : List SolEntry) : List SolEntry :=
  let total := (sol.map (·.percentage)).sum
  if 0 < total then
    sol.map (fun s => { s with percentage := s.percentage / total * 100 })
  else sol

/-- The blended composition of the current solution: each entry's nutritional
values are looked up in the pool by id. -/
def compositionOf (pool : List SolverIngredient) (sol : List SolEntry) :
    NutritionalValues :=
  calculateNutritionalComposition
    (sol.map (fun s =>
      { percentage := s.percentage,
        nutritionalValues := (findIngredient pool s.id).nutritionalValues }))

/-- `unitPrice` of `selectedIngredients[k]`. -/
def priceAt (pool : List SolverIngredient) (k : Nat) : ℚ :=
  (pool.getD k dummyIngredient).unitPrice

/-- `percentage` of `solution[k]`. -/
def percentageAt (sol : List SolEntry) (k : Nat) : ℚ :=
  (sol.getD k { id := "", name := "", percentage := 0 }).percentage

/-- `testSolution[i].percentage -= substitution; testSolution[j].percentage
+= substitution` (with `i ≠ j` in every reachable call, since `j ≥ i + 1`). -/
def shiftAt (sol : List SolEntry) (i j : Nat) (sub : ℚ) : List SolEntry :=
  sol.mapIdx (fun k s =>
    if k = i then { s with percentage := s.percentage - sub }
    else if k = j then { s with percentage := s.percentage + sub }
    else s)

/-- The constraint check on a trial substitution: every entry must respect
its ingredient's min/max percentage bounds (looked up by id). -/
def shiftValid (pool : List SolverIngredient) (sol : List SolEntry) : Bool :=
  sol.all (fun s =>
    match (findIngredient pool s.id).constraints with
    | some cs =>
      (match cs.minPercentage with
        | some m => !decide (s.percentage < m)
        | none => true) &&
      (match cs.maxPercentage with
        | some m => !decide (m < s.percentage)
        | none => true)
    | none => true)

/-- The inner `for (let j = i + 1; ...)` loop of the substitution search.
`js` is the list of remaining `j` indices. The JavaScript `testSolution` is a
*shallow* copy of `solution` (`[...solution]`), so the `-=`/`+=` updates
mutate the entries of `solution` itself: a rejected trial is **not** rolled
back, which is why the recursive call threads `testSolution` onward. -/
def improveJLoop (pool : List SolverIngredient) (req : NutritionalValues) (i : Nat) :
    List Nat → List SolEntry → List SolEntry × Bool
  | [], sol => (sol, false)
  | j :: js, sol =>
    if priceAt pool j < priceAt pool i then
      let substitution := min 5 (percentageAt sol i * (1/10))
      let testSolution := shiftAt sol i j substitution
      if shiftValid pool testSolution &&
         meetsNutritionalRequirements (compositionOf pool testSolution) req then
        (testSolution, true)
      else improveJLoop pool req i js testSolution
    else improveJLoop pool req i js sol

/-- The outer `for (let i = 0; ...)` loop of the substitution search. -/
def improveILoop (pool : List SolverIngredient) (req : NutritionalValues)
    (poolLen : Nat) : List Nat → List SolEntry → List SolEntry × Bool
  | [], sol => (sol, false)
  | i :: is', sol =>
    match improveJLoop pool req i ((List.range poolLen).drop (i + 1)) sol with
    | (sol', true) => (sol', true)
    | (sol', false) => improveILoop pool req poolLen is' sol'

/-- The whole "try to reduce cost by substituting with cheaper ingredients"
pass: returns the (possibly mutated) solution and the `improved` flag. -/
def tryImprove (pool : List SolverIngredient) (req : NutritionalValues)
    (sol : List SolEntry) : List SolEntry × Bool :=
  improveILoop pool req pool.length (List.range sol.length) sol

/-- One `{ ingredientIdx, adjustment }` record of the deficiency pass. -/
structure Adjustment where
  ingredientIdx : Nat
  adjustment : ℚ
deriving Repr, DecidableEq

/-- The deficiency scan of the unsatisfied branch: for each index, push a
+2 bump when the protein floor is unmet and this ingredient's protein beats
the current blend, then a +1.5 bump under the same test for energy. The
JavaScript guards are truthiness tests, so a floor or ingredient value of 0
never fires. -/
def computeAdjustments (pool : List SolverIngredient) (req : NutritionalValues)
    (composition : NutritionalValues) (sol : List SolEntry) : List Adjustment :=
  (List.range sol.length).flatMap (fun i =>
    let nv := (pool.getD i dummyIngredient).nutritionalValues
    let proteinAdj : List Adjustment :=
      match req.protein with
      | some reqP =>
        if reqP ≠ 0 ∧ composition.protein.getD 0 < reqP then
          match nv.protein with
          | some vP =>
            if vP ≠ 0 ∧ composition.protein.getD 0 < vP then
              [{ ingredientIdx := i, adjustment := 2 }]
            else []
          | none => []
        else []
      | none => []
    let energyAdj : List Adjustment :=
      match req.energy with
      | some reqE =>
        if reqE ≠ 0 ∧ composition.energy.getD 0 < reqE then
          match nv.energy with
          | some vE =>
            if vE ≠ 0 ∧ composition.energy.getD 0 < vE then
              [{ ingredientIdx := i, adjustment := 3/2 }]
            else []
          | none => []
        else []
      | none => []
    proteinAdj ++ energyAdj)

/-- `solution[idx].percentage += adj`. -/
def bumpAt (sol : List SolEntry) (idx : Nat) (adj : ℚ) : List SolEntry :=
  sol.mapIdx (fun k s => if k = idx then { s with percentage := s.percentage + adj } else s)

/-- Apply a non-empty adjustment list: add every bump, then subtract the
shared `reduction` from each non-bumped entry (clamped at 0), then
renormalize. When the denominator `solution.length - adjustments.length` is
0 the JavaScript division yields `+Infinity` (the numerator is a sum of 2s
and 1.5s, hence positive) and `Math.max(0, p - Infinity) = 0`. -/
def applyAdjustments (sol : List SolEntry) (adjustments : List Adjustment) :
    List SolEntry :=
  let totalAdjustment := (adjustments.map (·.adjustment)).sum
  let denom : ℚ := (sol.length : ℚ) - (adjustments.length : ℚ)
  let bumped := adjustments.foldl (fun s adj => bumpAt s adj.ingredientIdx adj.adjustment) sol
  let reduced := bumped.mapIdx (fun i s =>
    if adjustments.any (fun a => a.ingredientIdx == i) then s
    else if denom = 0 then { s with percentage := 0 }
    else { s with percentage := max 0 (s.percentage - totalAdjustment / denom) })
  normalize100 reduced

/-- The `while (iteration < maxIterations)` refinement loop, by fuel.
Returns the final solution together with the number of completed passes
(the source's `iteration` counter at exit). -/
def refineLoop (pool : List SolverIngredient) (req : NutritionalValues) :
    Nat → List SolEntry → Nat → List SolEntry × Nat
  | 0, sol, iteration => (sol, iteration)
  | fuel + 1, sol, iteration =>
    let composition := compositionOf pool sol
    if meetsNutritionalRequirements composition req then
      match tryImprove pool req sol with
      | (sol', true) => refineLoop pool req fuel sol' (iteration + 1)
      | (sol', false) => (sol', iteration)
    else
      let adjustments := computeAdjustments pool req composition sol
      if adjustments.isEmpty then (sol, iteration)
      else refineLoop pool req fuel (applyAdjustments sol adjustments) (iteration + 1)

/-- The requirement set: `targetNutrition ||
DEFAULT_NUTRITIONAL_REQUIREMENTS[targetAnimal] || {}` (an object, even empty,
is truthy). -/
def solverRequirements (input : FeedOptimizationInput) : NutritionalValues :=
  input.targetNutrition.getD
    ((DEFAULT_NUTRITIONAL_REQUIREMENTS input.targetAnimal).getD {})

/-- The candidate pool: price-sorted ingredients, truncated to the cheapest
`maxIngredients` when that field is set and non-zero (`0` is falsy). -/
def selectedPool (input : FeedOptimizationInput) : List SolverIngredient :=
  let sortedIngredients := sortByUnitPrice input.ingredients
  match input.maxIngredients with
  | some n => if n = 0 then sortedIngredients else sortedIngredients.take n
  | none => sortedIngredients

/-- The solution entering the refinement loop: equal shares, clamped to the
per-ingredient bounds, renormalized to 100. -/
def initialSolution (input : FeedOptimizationInput) : List SolEntry :=
  let selectedIngredients := selectedPool input
  let initialPercentage := 100 / (selectedIngredients.length : ℚ)
  let solution := selectedIngredients.map (fun ing =>
    { id := ing.id, name := ing.name, percentage := initialPercentage : SolEntry })
  normalize100 (applyConstraintClamp selectedIngredients solution)

/-- The solution after the refinement loop (100 iterations of fuel). -/
def finalSolution (input : FeedOptimizationInput) : List SolEntry :=
  (refineLoop (selectedPool input) (solverRequirements input) 100
    (initialSolution input) 0).1

/-- The number of refinement passes the loop completes. -/
def solverIterations (input : FeedOptimizationInput) : Nat :=
  (refineLoop (selectedPool input) (solverRequirements input) 100
    (initialSolution input) 0).2

/-- The `.filter(s => s.percentage > 0.01).map(...)` step of finalization:
drop near-zero entries and build each surviving component's amount and cost
from its pre-renormalization percentage. -/
def buildComponents (pool : List SolverIngredient) (totalAmount : ℚ)
    (solution : List SolEntry) : List FeedRationComponent :=
  (solution.filter (fun s => (1/100 : ℚ) < s.percentage)).map
    (fun s =>
      let ingredient := findIngredient pool s.id
      let amount := s.percentage / 100 * totalAmount
      let cost := ingredient.unitPrice * amount
      { ingredientId := s.id, ingredientName := s.name,
        percentage := s.percentage, amount := amount, cost := cost })

/-- Finalization: the drop-and-build step followed by the in-place
percentage renormalization (`amount` and `cost` are not recomputed). -/
def finalizeComponents (pool : List SolverIngredient) (totalAmount : ℚ)
    (solution : List SolEntry) : List FeedRationComponent :=
  let rationComponents := buildComponents pool totalAmount solution
  let filteredTotal : ℚ := (rationComponents.map (·.percentage)).sum
  if 0 < filteredTotal then
    rationComponents.map (fun c => { c with percentage := c.percentage / filteredTotal * 100 })
  else rationComponents

/-- `solveLeastCostFeedFormulation` of `feed-solver.ts`. The thrown
`Error('At least one ingredient is required')` is an `Except.error`; `now`
models the `new Date()` call of the result record. -/
def solveLeastCostFeedFormulation (input : FeedOptimizationInput) (now : ℤ) :
    Except String FeedRation :=
  if input.ingredients.length = 0 then
    .error "At least one ingredient is required"
  else
    let selectedIngredients := selectedPool input
    let solution := finalSolution input
    let finalComposition := compositionOf selectedIngredients solution
    let rationComponents := finalizeComponents selectedIngredients input.totalAmount solution
    let totalCost := (rationComponents.map (·.cost)).sum
    .ok
      { userId := ""
        targetAnimal := input.targetAnimal
        totalAmount := input.totalAmount
        unit := match input.unit with
          | some u => if u.isEmpty then "kg" else u
          | none => "kg"
        components := rationComponents
        totalCost := totalCost
        nutritionalValues := finalComposition
        optimizedAt := now }

/-- `z.number().min(0).max(100).optional()` of the shared schema. -/
def optPctOk (o : Option ℚ) : Bool :=
  match o with
  | none => true
  | some v => decide (0 ≤ v) && decide (v ≤ 100)

/-- `z.number().min(0).optional()` of the shared schema. -/
def optNonnegOk (o : Option ℚ) : Bool :=
  match o with
  | none => true
  | some v => decide (0 ≤ v)

/-- Validity of a `NutritionalValues` record per `NutritionalValuesSchema`
(percentage-type keys in [0,100]; energy merely non-negative). -/
def validNutritionalValues (nv : NutritionalValues) : Bool :=
  optPctOk nv.protein && optNonnegOk nv.energy && optPctOk nv.fiber &&
  optPctOk nv.fat && optPctOk nv.calcium && optPctOk nv.phosphorus &&
  optPctOk nv.dryMatter && optPctOk nv.ash

/-- Validity per `IngredientConstraintsSchema`. -/
def validIngredientConstraints (cs : IngredientConstraints) : Bool :=
  optPctOk cs.minPercentage && optPctOk cs.maxPercentage &&
  optNonnegOk cs.minAmount && optNonnegOk cs.maxAmount

/-- Validity of one candidate ingredient per the inline object schema of
`FeedOptimizationInputSchema.ingredients`. -/
def validIngredient (ing : SolverIngredient) : Bool :=
  decide (1 ≤ ing.id.length) && decide (1 ≤ ing.name.length) &&
  decide (0 ≤ ing.unitPrice) && validNutritionalValues ing.nutritionalValues &&
  (match ing.constraints with
    | some cs => validIngredientConstraints cs
    | none => true)

/-- The seven-species `targetAnimal` enum of the schema. -/
def animalEnum : List String :=
  ["Dairy Cattle", "Beef Cattle", "Calf", "Pig", "Chicken", "Sheep", "Goat"]

/-- The `unit` enum of the schema. -/
def unitEnum : List String := ["kg", "ton", "lb", "pound"]

/-- An `OptimizationRequest` valid per `FeedOptimizationInputSchema`:
recognized animal, positive total amount, at least one ingredient, every
ingredient/nutrition record in range, `maxIngredients` a positive integer
when present. -/
def ValidInput (input : FeedOptimizationInput) : Bool :=
  animalEnum.contains input.targetAnimal &&
  decide (0 < input.totalAmount) &&
  (match input.unit with
    | some u => unitEnum.contains u
    | none => true) &&
  !input.ingredients.isEmpty &&
  input.ingredients.all validIngredient &&
  (match input.targetNutrition with
    | some nv => validNutritionalValues nv
    | none => true) &&
  (match input.maxIngredients with
    | some n => decide (1 ≤ n)
    | none => true)

/-- The `userId: z.string().min(1, 'User ID is required')` constraint of
`FeedRationSchema` applied to a ration. -/
def feedRationUserIdOk (r : FeedRation) : Bool :=
  decide (1 ≤ r.userId.length)

/-- Forget the `optimizedAt` clock reading of a ration (used to compare two
invocations field-by-field apart from the timestamp). -/
def eraseClock (r : FeedRation) : FeedRation :=
  { r with optimizedAt := 0 }

/-- Two flat ingredients (no nutrient data, no constraints) at prices 1 and
2, with an explicitly empty requirement set. -/
def flatTwoInput : FeedOptimizationInput :=
  { targetAnimal := "Dairy Cattle", totalAmount := 100,
    ingredients :=
      [{ id := "a", name := "A", unitPrice := 1, nutritionalValues := {} },
       { id := "b", name := "B", unitPrice := 2, nutritionalValues := {} }],
    targetNutrition := some {} }

/-- A single ingredient whose `maxPercentage` constraint is 0: the clamp
forces its share to 0 and finalization drops it. -/
def maxZeroInput : FeedOptimizationInput :=
  { targetAnimal := "Dairy Cattle", totalAmount := 100,
    ingredients :=
      [{ id := "a", name := "A", unitPrice := 1, nutritionalValues := {},
         constraints := some { maxPercentage := some 0 } }],
    targetNutrition := some {} }

/-- Two ingredients where the first is capped at 0.001%: after the initial
renormalization its share is below the 0.01 drop threshold, so finalization
drops it and rescales the survivor's percentage without touching its
amount. -/
def dropInput : FeedOptimizationInput :=
  { targetAnimal := "Dairy Cattle", totalAmount := 100,
    ingredients :=
      [{ id := "a", name := "A", unitPrice := 1, nutritionalValues := {},
         constraints := some { maxPercentage := some (1/1000) } },
       { id := "b", name := "B", unitPrice := 2, nutritionalValues := {} }],
    targetNutrition := some {} }

/-- Corn/soybean pool capped at one ingredient. -/
def capOneInput : FeedOptimizationInput :=
  { targetAnimal := "Goat", totalAmount := 50,
    ingredients :=
      [{ id := "soy", name := "SoybeanMeal", unitPrice := 1/2,
         nutritionalValues := { protein := some 44, energy := some (32/10) } },
       { id := "corn", name := "Corn", unitPrice := 1/5,
         nutritionalValues := { protein := some 8, energy := some (35/10) } }],
    targetNutrition := some {}, maxIngredients := some 1 }

/-- `OnOk p e` holds when `e` is a success result satisfying `p` (used to
state evaluation facts about solver runs). -/
def OnOk (p : FeedRation → Prop) : Except String FeedRation → Prop
  | .ok r => p r
  | .error _ => False

instance (p : FeedRation → Prop) [DecidablePred p] :
    (e : Except String FeedRation) → Decidable (OnOk p e)
  | .ok r => inferInstanceAs (Decidable (p r))
  | .error _ => inferInstanceAs (Decidable False)

/-- C4: `solveLeastCostFeedFormulation` raises the `InvalidInput` error
exactly when the ingredients list is empty (with no partial result — the
error carries only the message); every non-empty list yields a `Ration`
without throwing. -/
theorem invalid_input_iff_empty_ingredients
    (input : FeedOptimizationInput) (now : ℤ) :
    match solveLeastCostFeedFormulation input now with
    | .error e => input.ingredients = [] ∧ e = "At least one ingredient is required"
    | .ok _ => input.ingredients ≠ [] := by
  unfold solveLeastCostFeedFormulation
  by_cases h : input.ingredients.length = 0
  · rw [if_pos h]
    exact ⟨List.length_eq_zero.mp h, rfl⟩
  · rw [if_neg h]
    exact fun hempty => h (by simp [hempty])

/-- C10: the raw solver output always carries `userId = ""`, which fails the
`userId: z.string().min(1)` constraint of `FeedRationSchema`. -/
theorem solver_userId_empty_fails_schema
    (input : FeedOptimizationInput) (now : ℤ) (h : input.ingredients ≠ []) :
    match solveLeastCostFeedFormulation input now with
    | .error _ => False
    | .ok r => r.userId = "" ∧ feedRationUserIdOk r = false := by
  unfold solveLeastCostFeedFormulation
  rw [if_neg (by simpa using h)]
  exact ⟨rfl, rfl⟩

/-- Witness for C10 at a concrete input. -/
theorem solver_userId_empty_fails_schema_witness :
    match solveLeastCostFeedFormulation flatTwoInput 0 with
    | .error _ => False
    | .ok r => r.userId = "" ∧ feedRationUserIdOk r = false :=
  solver_userId_empty_fails_schema flatTwoInput 0 (by decide)

/-- C8 (amended): the solver is deterministic in everything but the
`optimizedAt` timestamp — two invocations agree on every other field. -/
theorem deterministic_except_timestamp
    (input : FeedOptimizationInput) (t1 t2 : ℤ) :
    (solveLeastCostFeedFormulation input t1).map eraseClock =
      (solveLeastCostFeedFormulation input t2).map eraseClock := by
  unfold solveLeastCostFeedFormulation
  by_cases h : input.ingredients.length = 0
  · rw [if_pos h, if_pos h]
  · rw [if_neg h, if_neg h]
    rfl

/-- Counterexample to C8 as stated: two invocations of the solver on the
same request at different clock readings (`new Date()` differs across real
invocations) yield different `Ration` records — they disagree on
`optimizedAt`. -/
theorem clock_changes_output :
    (solveLeastCostFeedFormulation flatTwoInput 0).toOption ≠
      (solveLeastCostFeedFormulation flatTwoInput 1).toOption := by
  with_unfolding_all decide

/-- C3 (evaluation at the failing input): on `flatTwoInput` the requirement
floors are met, the pool pair (i = 1, j = 0) has `price[j] < price[i]`, and
shifting `min(5, percentage[1] × 0.1)` points from 1 to 0 violates no
constraint and still meets every floor — yet the solver performs no shift at
all: the refinement loop returns the initial 50/50 split unchanged. The
substitution scan only examines pairs `j > i` of a pool already sorted
ascending by price, so its `price[j] < price[i]` guard never fires. -/
theorem substitution_never_performed :
    meetsNutritionalRequirements
      (compositionOf (selectedPool flatTwoInput) (initialSolution flatTwoInput))
      (solverRequirements flatTwoInput) = true ∧
    priceAt (selectedPool flatTwoInput) 0 < priceAt (selectedPool flatTwoInput) 1 ∧
    shiftValid (selectedPool flatTwoInput)
      (shiftAt (initialSolution flatTwoInput) 1 0
        (min 5 (percentageAt (initialSolution flatTwoInput) 1 * (1/10)))) = true ∧
    meetsNutritionalRequirements
      (compositionOf (selectedPool flatTwoInput)
        (shiftAt (initialSolution flatTwoInput) 1 0
          (min 5 (percentageAt (initialSolution flatTwoInput) 1 * (1/10)))))
      (solverRequirements flatTwoInput) = true ∧
    finalSolution flatTwoInput = initialSolution flatTwoInput ∧
    OnOk (fun r => r.components.map (fun c => c.percentage) = [50, 50])
      (solveLeastCostFeedFormulation flatTwoInput 0) := by
  with_unfolding_all decide

/-- Counterexample to C1 as stated: a schema-valid request (one ingredient
whose `maxPercentage` is 0) yields a ration with an empty components list,
whose percentage sum is 0, not 100 ± 0.1. -/
theorem percentages_sum_zero_on_valid_input :
    ValidInput maxZeroInput = true ∧
    OnOk (fun r =>
        r.components = [] ∧
        (r.components.map (fun c => c.percentage)).sum = 0 ∧
        ¬ |(r.components.map (fun c => c.percentage)).sum - 100| ≤ 1/10)
      (solveLeastCostFeedFormulation maxZeroInput 0) := by
  with_unfolding_all decide

/-- Counterexample to C2 as stated: on `dropInput` the final drop-and-
renormalize step rescales the surviving component's percentage to 100 but
leaves its `amount` at the pre-renormalization value, so
`amount ≠ percentage/100 × totalAmount`. -/
theorem component_amount_mismatch_after_drop :
    ValidInput dropInput = true ∧
    OnOk (fun r => ∃ c ∈ r.components, ¬ c.amount = c.percentage / 100 * dropInput.totalAmount)
      (solveLeastCostFeedFormulation dropInput 0) := by
  with_unfolding_all decide

theorem sum_filter_eq_sum_map {α : Type} (l : List α) (p : α → Bool) (f : α → ℚ)
    (h : ∀ x ∈ l, p x = false → f x = 0) :
    ((l.filter p).map f).sum = (l.map f).sum := by
  induction l with
  | nil => rfl
  | cons a t ih =>
    by_cases hp : p a = true
    · simp only [List.filter_cons, hp, if_pos, List.map_cons, List.sum_cons]
      rw [ih (fun x hx hpx => h x (List.mem_cons_of_mem a hx) hpx)]
    · have hpa : p a = false := by simpa using hp
      simp only [List.filter_cons, hpa, Bool.false_eq_true, if_false, List.map_cons,
        List.sum_cons, h a (List.mem_cons_self a t) hpa, zero_add]
      exact ih (fun x hx hpx => h x (List.mem_cons_of_mem a hx) hpx)

set_option maxHeartbeats 1600000 in
theorem addComponent_get (acc : NutritionalValues) (c : CompEntry) (k : NutrientKey) :
    (addComponent acc c).get k =
      match c.nutritionalValues.get k with
      | some v => some ((acc.get k).getD 0 + v * (c.percentage / 100))
      | none => acc.get k := by
  cases k <;> simp only [NutritionalValues.get, addComponent] <;> (repeat' split) <;> rfl

theorem foldl_addComponent_get (comps : List CompEntry) (acc : NutritionalValues)
    (k : NutrientKey) :
    (comps.foldl addComponent acc).get k =
      if comps.all (fun c => (c.nutritionalValues.get k).isNone) then acc.get k
      else some ((acc.get k).getD 0 +
        (comps.map (fun c => c.percentage / 100 * ((c.nutritionalValues.get k).getD 0))).sum) := by
  induction comps generalizing acc with
  | nil => simp
  | cons c t ih =>
    rw [List.foldl_cons, ih]
    cases hnv : c.nutritionalValues.get k with
    | some v =>
      have hall : (c :: t).all (fun c => (c.nutritionalValues.get k).isNone) = false := by
        simp [List.all_cons, hnv]
      rw [hall, addComponent_get, hnv]
      by_cases ht : t.all (fun c => (c.nutritionalValues.get k).isNone) = true
      · rw [if_pos ht]
        have hz : (t.map (fun c => c.percentage / 100 * ((c.nutritionalValues.get k).getD 0))).sum = 0 := by
          apply List.sum_eq_zero
          intro x hx
          rcases List.mem_map.mp hx with ⟨e, he, rfl⟩
          have := List.all_eq_true.mp ht e he
          rcases hopt : e.nutritionalValues.get k with _ | w
          · simp [hopt]
          · rw [hopt] at this; simp at this
        simp only [Bool.false_eq_true, if_false, List.map_cons, List.sum_cons, hnv,
          Option.getD_some, hz, Option.some.injEq]
        ring
      · have ht' : t.all (fun c => (c.nutritionalValues.get k).isNone) = false := by
          simpa using ht
        rw [if_neg (by simp [ht']), if_neg (by simp [ht'])]
        simp only [Option.getD_some, List.map_cons, List.sum_cons, hnv, Option.some.injEq]
        ring
    | none =>
      rw [addComponent_get, hnv, List.all_cons, hnv]
      simp only [Option.isNone_none, Bool.true_and, List.map_cons, List.sum_cons, hnv,
        Option.getD_none, mul_zero, zero_add]

/-- C7: nutrient blending is the exact percentage-weighted sum over the
components that define a key, and a key no component defines is absent from
the blend (not zero). -/
theorem nutrient_blend_weighted_sum (comps : List CompEntry) (k : NutrientKey) :
    (calculateNutritionalComposition comps).get k =
      if comps.all (fun c => (c.nutritionalValues.get k).isNone) then none
      else some (((comps.filter (fun c => (c.nutritionalValues.get k).isSome)).map
        (fun c => c.percentage / 100 * ((c.nutritionalValues.get k).getD 0))).sum) := by
  have hempty : ({} : NutritionalValues).get k = none := by cases k <;> rfl
  rw [calculateNutritionalComposition, foldl_addComponent_get, hempty]
  split
  · rfl
  · rw [sum_filter_eq_sum_map]
    · simp
    · intro x hx hpx
      rcases hopt : x.nutritionalValues.get k with _ | v
      · simp [hopt]
      · rw [hopt] at hpx
        simp at hpx

theorem validInput_ingredients_ne_nil {input : FeedOptimizationInput}
    (h : ValidInput input = true) : input.ingredients ≠ [] := by
  intro hnil
  rw [ValidInput, hnil] at h
  simp at h

theorem buildComponents_percentages (pool : List SolverIngredient) (totalAmount : ℚ)
    (solution : List SolEntry) :
    (buildComponents pool totalAmount solution).map (fun c => c.percentage) =
      (solution.filter (fun s => (1/100 : ℚ) < s.percentage)).map (fun s => s.percentage) := by
  rw [buildComponents, List.map_map]
  rfl

theorem sum_map_renormalize (l : List FeedRationComponent) (T : ℚ) (hT : 0 < T)
    (hsum : (l.map (fun c => c.percentage)).sum = T) :
    ((l.map (fun c => { c with percentage := c.percentage / T * 100 })).map
      (fun c => c.percentage)).sum = 100 := by
  rw [List.map_map]
  have hc : (l.map ((fun c : FeedRationComponent => c.percentage) ∘
      (fun c => { c with percentage := c.percentage / T * 100 }))) =
      l.map (fun c => c.percentage * (100 / T)) := by
    apply List.map_congr_left
    intro c _
    simp only [Function.comp_apply]
    ring
  rw [hc, List.sum_map_mul_right, hsum]
  field_simp

theorem finalizeComponents_empty_or_sum_hundred (pool : List SolverIngredient)
    (totalAmount : ℚ) (solution : List SolEntry) :
    finalizeComponents pool totalAmount solution = [] ∨
      ((finalizeComponents pool totalAmount solution).map (fun c => c.percentage)).sum = 100 := by
  rw [finalizeComponents]
  by_cases hempty : buildComponents pool totalAmount solution = []
  · left
    simp [hempty]
  · right
    have hpos : ∀ q ∈ ((buildComponents pool totalAmount solution).map (fun c => c.percentage)),
        0 < q := by
      rw [buildComponents_percentages]
      intro q hq
      rcases List.mem_map.mp hq with ⟨s, hs, rfl⟩
      have h1 : (1/100 : ℚ) < s.percentage := by simpa using List.of_mem_filter hs
      linarith
    have hTpos : 0 < ((buildComponents pool totalAmount solution).map (fun c => c.percentage)).sum :=
      List.sum_pos _ hpos (by simpa using hempty)
    rw [if_pos hTpos]
    exact sum_map_renormalize _ _ hTpos rfl

/-- C1 (amended): for every schema-valid request the solver returns a ration
whose component percentages sum to exactly 100, unless every percentage at
finalization is ≤ 0.01 — then the components list is empty and the sum is 0
(reachable by valid inputs, e.g. a `maxPercentage` of 0). -/
theorem components_sum_hundred_unless_empty (input : FeedOptimizationInput) (now : ℤ)
    (h : ValidInput input = true) :
    match solveLeastCostFeedFormulation input now with
    | .error _ => False
    | .ok r => r.components = [] ∨ (r.components.map (fun c => c.percentage)).sum = 100 := by
  have hne : input.ingredients.length ≠ 0 := by
    simpa using fun hx => validInput_ingredients_ne_nil h (by simpa using hx)
  unfold solveLeastCostFeedFormulation
  rw [if_neg hne]
  exact finalizeComponents_empty_or_sum_hundred _ _ _

/-- Witness for C1's amended theorem at a concrete input. -/
theorem components_sum_hundred_unless_empty_witness :
    match solveLeastCostFeedFormulation flatTwoInput 0 with
    | .error _ => False
    | .ok r => r.components = [] ∨ (r.components.map (fun c => c.percentage)).sum = 100 :=
  components_sum_hundred_unless_empty flatTwoInput 0 (by with_unfolding_all decide)

theorem sortByUnitPrice_sorted (l : List SolverIngredient) :
    (sortByUnitPrice l).Pairwise priceLE :=
  List.sorted_insertionSort priceLE l

theorem sortByUnitPrice_perm (l : List SolverIngredient) :
    (sortByUnitPrice l).Perm l :=
  List.perm_insertionSort priceLE l

theorem selectedPool_sorted (input : FeedOptimizationInput) :
    (selectedPool input).Pairwise priceLE := by
  rw [selectedPool]
  cases input.maxIngredients with
  | none => exact sortByUnitPrice_sorted _
  | some n =>
    by_cases h : n = 0
    · simpa [h] using sortByUnitPrice_sorted _
    · simp only [h, if_false]
      exact (sortByUnitPrice_sorted _).sublist (List.take_sublist n _)

theorem selectedPool_subset (input : FeedOptimizationInput) :
    ∀ a ∈ selectedPool input, a ∈ input.ingredients := by
  intro a ha
  rw [selectedPool] at ha
  have hsorted : a ∈ sortByUnitPrice input.ingredients := by
    split at ha
    · split at ha
      · exact ha
      · exact List.take_subset _ _ ha
    · exact ha
  exact (sortByUnitPrice_perm input.ingredients).subset hsorted

theorem priceAt_mono {pool : List SolverIngredient} (hp : pool.Pairwise priceLE)
    {i j : Nat} (hij : i < j) (hj : j < pool.length) :
    priceAt pool i ≤ priceAt pool j := by
  unfold priceAt
  rw [List.getD_eq_getElem _ _ (lt_trans hij hj), List.getD_eq_getElem _ _ hj]
  exact List.pairwise_iff_getElem.mp hp i j (lt_trans hij hj) hj hij

theorem mem_range_drop {n m j : Nat} (h : j ∈ (List.range n).drop m) : m ≤ j ∧ j < n := by
  refine ⟨?_, List.mem_range.mp (List.mem_of_mem_drop h)⟩
  rcases List.mem_iff_getElem.mp h with ⟨i, hi, hj⟩
  rw [List.getElem_drop, List.getElem_range] at hj
  omega

theorem improveJLoop_eq_of_no_cheaper (pool : List SolverIngredient)
    (req : NutritionalValues) (i : Nat) (js : List Nat) (sol : List SolEntry)
    (h : ∀ j ∈ js, ¬ priceAt pool j < priceAt pool i) :
    improveJLoop pool req i js sol = (sol, false) := by
  induction js generalizing sol with
  | nil => rfl
  | cons j js ih =>
    rw [improveJLoop, if_neg (h j (List.mem_cons_self j js))]
    exact ih sol (fun j' hj' => h j' (List.mem_cons_of_mem j hj'))

theorem improveILoop_eq_of_sorted (pool : List SolverIngredient)
    (req : NutritionalValues) (hp : pool.Pairwise priceLE) (is' : List Nat)
    (sol : List SolEntry) (his : ∀ i ∈ is', i < pool.length) :
    improveILoop pool req pool.length is' sol = (sol, false) := by
  induction is' with
  | nil => rfl
  | cons i is' ih =>
    rw [improveILoop, improveJLoop_eq_of_no_cheaper]
    · exact ih (fun i' hi' => his i' (List.mem_cons_of_mem i hi'))
    · intro j hj
      rcases mem_range_drop hj with ⟨hij, hjn⟩
      exact not_lt.mpr (priceAt_mono hp (Nat.lt_of_succ_le hij) hjn)

theorem tryImprove_eq_of_sorted (pool : List SolverIngredient)
    (req : NutritionalValues) (sol : List SolEntry) (hp : pool.Pairwise priceLE)
    (hlen : sol.length = pool.length) :
    tryImprove pool req sol = (sol, false) := by
  rw [tryImprove]
  exact improveILoop_eq_of_sorted pool req hp _ sol
    (fun i hi => hlen ▸ List.mem_range.mp hi)

theorem map_id_mapIdx (l : List SolEntry) (f : Nat → SolEntry → SolEntry)
    (hf : ∀ k s, (f k s).id = s.id) :
    (l.mapIdx f).map (fun s => s.id) = l.map (fun s => s.id) := by
  induction l generalizing f with
  | nil => rfl
  | cons a t ih =>
    rw [List.mapIdx_cons, List.map_cons, List.map_cons, hf,
      ih (fun i => f (i + 1)) (fun k s => hf (k + 1) s)]

theorem normalize100_map_id (sol : List SolEntry) :
    (normalize100 sol).map (fun s => s.id) = sol.map (fun s => s.id) := by
  rw [normalize100]
  split
  · rw [List.map_map]
    rfl
  · rfl

theorem normalize100_sum (sol : List SolEntry)
    (h : 0 < (sol.map (fun s => s.percentage)).sum) :
    ((normalize100 sol).map (fun s => s.percentage)).sum = 100 := by
  rw [normalize100, if_pos h, List.map_map]
  have hc : (sol.map ((fun s : SolEntry => s.percentage) ∘
      (fun s => { s with percentage :=
        s.percentage / (sol.map (fun s => s.percentage)).sum * 100 }))) =
      sol.map (fun s => s.percentage * (100 / (sol.map (fun s => s.percentage)).sum)) := by
    apply List.map_congr_left
    intro s _
    simp only [Function.comp_apply]
    ring
  rw [hc, List.sum_map_mul_right]
  field_simp

theorem normalize100_nonneg (sol : List SolEntry)
    (h : ∀ s ∈ sol, 0 ≤ s.percentage) :
    ∀ s ∈ normalize100 sol, 0 ≤ s.percentage := by
  rw [normalize100]
  split
  · intro s hs
    rcases List.mem_map.mp hs with ⟨x, hx, rfl⟩
    have hx0 := h x hx
    have hT : (0 : ℚ) < (sol.map (fun s => s.percentage)).sum := by assumption
    positivity
  · exact h

theorem bumpAt_map_id (sol : List SolEntry) (idx : Nat) (adj : ℚ) :
    (bumpAt sol idx adj).map (fun s => s.id) = sol.map (fun s => s.id) := by
  apply map_id_mapIdx
  intro k s
  split <;> rfl

theorem bumps_map_id (adjs : List Adjustment) (sol : List SolEntry) :
    ((adjs.foldl (fun s adj => bumpAt s adj.ingredientIdx adj.adjustment) sol).map
      (fun s => s.id)) = sol.map (fun s => s.id) := by
  induction adjs generalizing sol with
  | nil => rfl
  | cons a t ih => rw [List.foldl_cons, ih, bumpAt_map_id]

theorem applyAdjustments_map_id (sol : List SolEntry) (adjs : List Adjustment) :
    (applyAdjustments sol adjs).map (fun s => s.id) = sol.map (fun s => s.id) := by
  rw [applyAdjustments, normalize100_map_id, map_id_mapIdx, bumps_map_id]
  intro k s
  split
  · rfl
  · split <;> rfl

theorem bumpAt_length (sol : List SolEntry) (idx : Nat) (adj : ℚ) :
    (bumpAt sol idx adj).length = sol.length := by
  rw [bumpAt, List.length_mapIdx]

theorem bumps_length (adjs : List Adjustment) (sol : List SolEntry) :
    (adjs.foldl (fun s adj => bumpAt s adj.ingredientIdx adj.adjustment) sol).length =
      sol.length := by
  induction adjs generalizing sol with
  | nil => rfl
  | cons a t ih => rw [List.foldl_cons, ih, bumpAt_length]

theorem percentageAt_eq (sol : List SolEntry) (i : Nat) (hi : i < sol.length) :
    percentageAt sol i = sol[i].percentage := by
  rw [percentageAt, List.getD_eq_getElem _ _ hi]

theorem percentageAt_bumpAt (sol : List SolEntry) (idx : Nat) (adj : ℚ) (i : Nat)
    (hi : i < sol.length) :
    percentageAt (bumpAt sol idx adj) i =
      if i = idx then percentageAt sol i + adj else percentageAt sol i := by
  rw [percentageAt_eq _ _ (by rw [bumpAt_length]; exact hi), percentageAt_eq _ _ hi]
  simp only [bumpAt, List.getElem_mapIdx]
  split <;> rfl

theorem percentageAt_bumps_ge (adjs : List Adjustment) (sol : List SolEntry) (i : Nat)
    (hi : i < sol.length) (hpos : ∀ a ∈ adjs, 0 ≤ a.adjustment) :
    percentageAt sol i ≤
      percentageAt (adjs.foldl (fun s adj => bumpAt s adj.ingredientIdx adj.adjustment) sol) i := by
  induction adjs generalizing sol with
  | nil => exact le_refl _
  | cons a t ih =>
    rw [List.foldl_cons]
    refine le_trans ?_ (ih (bumpAt sol a.ingredientIdx a.adjustment)
      (by rw [bumpAt_length]; exact hi) (fun x hx => hpos x (List.mem_cons_of_mem a hx)))
    rw [percentageAt_bumpAt sol a.ingredientIdx a.adjustment i hi]
    split
    · have := hpos a (List.mem_cons_self a t)
      linarith
    · exact le_refl _

theorem bumpAt_nonneg (sol : List SolEntry) (idx : Nat) (adj : ℚ) (hadj : 0 ≤ adj)
    (h : ∀ s ∈ sol, 0 ≤ s.percentage) :
    ∀ s ∈ bumpAt sol idx adj, 0 ≤ s.percentage := by
  intro s hs
  rw [bumpAt] at hs
  rcases List.mem_mapIdx.mp hs with ⟨i, hi, heq⟩
  have hmem := List.getElem_mem hi
  subst heq
  split
  · have := h _ hmem
    simp only
    linarith
  · exact h _ hmem

theorem bumps_nonneg (adjs : List Adjustment) (sol : List SolEntry)
    (hpos : ∀ a ∈ adjs, 0 ≤ a.adjustment) (h : ∀ s ∈ sol, 0 ≤ s.percentage) :
    ∀ s ∈ adjs.foldl (fun s adj => bumpAt s adj.ingredientIdx adj.adjustment) sol,
      0 ≤ s.percentage := by
  induction adjs generalizing sol with
  | nil => exact h
  | cons a t ih =>
    rw [List.foldl_cons]
    exact ih _ (fun x hx => hpos x (List.mem_cons_of_mem a hx))
      (bumpAt_nonneg sol a.ingredientIdx a.adjustment (hpos a (List.mem_cons_self a t)) h)

theorem computeAdjustments_mem (pool : List SolverIngredient) (req : NutritionalValues)
    (comp : NutritionalValues) (sol : List SolEntry) :
    ∀ a ∈ computeAdjustments pool req comp sol,
      a.ingredientIdx < sol.length ∧ (a.adjustment = 2 ∨ a.adjustment = 3/2) := by
  intro a ha
  rw [computeAdjustments] at ha
  rcases List.mem_flatMap.mp ha with ⟨i, hi, hmem⟩
  have hilen : i < sol.length := List.mem_range.mp hi
  dsimp only at hmem
  rcases List.mem_append.mp hmem with h | h <;>
    [(refine ?_ ; repeat' split at h); (refine ?_ ; repeat' split at h)] <;>
    simp only [List.mem_singleton, List.not_mem_nil] at h <;>
    first
    | exact absurd h not_false
    | (subst h; exact ⟨hilen, by norm_num⟩)

theorem computeAdjustments_pos (pool : List SolverIngredient) (req : NutritionalValues)
    (comp : NutritionalValues) (sol : List SolEntry) :
    ∀ a ∈ computeAdjustments pool req comp sol, 0 ≤ a.adjustment := by
  intro a ha
  rcases (computeAdjustments_mem pool req comp sol a ha).2 with h | h <;> rw [h] <;> norm_num

theorem applyAdjustments_eq (sol : List SolEntry) (adjs : List Adjustment) :
    applyAdjustments sol adjs =
      normalize100 (((adjs.foldl (fun s adj => bumpAt s adj.ingredientIdx adj.adjustment)
        sol)).mapIdx (fun i s =>
          if adjs.any (fun a => a.ingredientIdx == i) then s
          else if ((sol.length : ℚ) - (adjs.length : ℚ)) = 0 then { s with percentage := 0 }
          else { s with percentage :=
            (max 0 (s.percentage -
              (adjs.map (fun a => a.adjustment)).sum /
                ((sol.length : ℚ) - (adjs.length : ℚ)))) })) := rfl

theorem applyAdjustments_sum_nonneg (sol : List SolEntry) (adjs : List Adjustment)
    (hnonneg : ∀ s ∈ sol, 0 ≤ s.percentage) (hne : adjs ≠ [])
    (hmem : ∀ a ∈ adjs, a.ingredientIdx < sol.length ∧ (a.adjustment = 2 ∨ a.adjustment = 3/2)) :
    ((applyAdjustments sol adjs).map (fun s => s.percentage)).sum = 100 ∧
      ∀ s ∈ applyAdjustments sol adjs, 0 ≤ s.percentage := by
  have hpos : ∀ a ∈ adjs, 0 ≤ a.adjustment := by
    intro a ha
    rcases (hmem a ha).2 with h | h <;> rw [h] <;> norm_num
  rw [applyAdjustments_eq]
  set bumped := adjs.foldl (fun s adj => bumpAt s adj.ingredientIdx adj.adjustment) sol
    with hbumped
  set reduced := bumped.mapIdx (fun i s =>
    if adjs.any (fun a => a.ingredientIdx == i) then s
    else if ((sol.length : ℚ) - (adjs.length : ℚ)) = 0 then { s with percentage := 0 }
    else { s with percentage :=
      (max 0 (s.percentage -
        (adjs.map (fun a => a.adjustment)).sum /
          ((sol.length : ℚ) - (adjs.length : ℚ)))) }) with hreduced
  have hblen : bumped.length = sol.length := bumps_length adjs sol
  have hrlen : reduced.length = sol.length := by rw [hreduced, List.length_mapIdx, hblen]
  have hbnonneg : ∀ s ∈ bumped, 0 ≤ s.percentage := bumps_nonneg adjs sol hpos hnonneg
  have hrnonneg : ∀ s ∈ reduced, 0 ≤ s.percentage := by
    intro s hs
    rw [hreduced] at hs
    rcases List.mem_mapIdx.mp hs with ⟨i, hi, heq⟩
    have hbm := List.getElem_mem hi
    subst heq
    split
    · exact hbnonneg _ hbm
    · split
      · norm_num
      · exact le_max_left 0 _
  obtain ⟨a0, t0, ha0⟩ := List.exists_cons_of_ne_nil hne
  have ha0mem : a0 ∈ adjs := by rw [ha0]; exact List.mem_cons_self a0 t0
  have hi0 : a0.ingredientIdx < sol.length := (hmem a0 ha0mem).1
  have hadj0 : (3/2 : ℚ) ≤ a0.adjustment := by
    rcases (hmem a0 ha0mem).2 with h | h <;> rw [h] <;> norm_num
  have hsol0 : 0 ≤ percentageAt sol a0.ingredientIdx := by
    rw [percentageAt_eq sol _ hi0]
    exact hnonneg _ (List.getElem_mem hi0)
  have hbump0 : (3/2 : ℚ) ≤ percentageAt bumped a0.ingredientIdx := by
    rw [hbumped, ha0, List.foldl_cons]
    have hstep : percentageAt (bumpAt sol a0.ingredientIdx a0.adjustment) a0.ingredientIdx =
        percentageAt sol a0.ingredientIdx + a0.adjustment := by
      rw [percentageAt_bumpAt sol _ _ _ hi0, if_pos rfl]
    have hge := percentageAt_bumps_ge t0 (bumpAt sol a0.ingredientIdx a0.adjustment)
      a0.ingredientIdx (by rw [bumpAt_length]; exact hi0)
      (fun x hx => hpos x (by rw [ha0]; exact List.mem_cons_of_mem a0 hx))
    rw [hstep] at hge
    linarith
  have hred0 : percentageAt reduced a0.ingredientIdx = percentageAt bumped a0.ingredientIdx := by
    rw [percentageAt_eq reduced _ (by rw [hrlen]; exact hi0),
      percentageAt_eq bumped _ (by rw [hblen]; exact hi0)]
    simp only [hreduced, List.getElem_mapIdx]
    rw [if_pos (List.any_eq_true.mpr ⟨a0, ha0mem, by simp⟩)]
  have hsumpos : 0 < (reduced.map (fun s => s.percentage)).sum := by
    have hi0r : a0.ingredientIdx < reduced.length := by rw [hrlen]; exact hi0
    have hmemmap : reduced[a0.ingredientIdx].percentage ∈ reduced.map (fun s => s.percentage) :=
      List.mem_map.mpr ⟨_, List.getElem_mem hi0r, rfl⟩
    have hle := List.single_le_sum (l := reduced.map (fun s => s.percentage))
      (fun x hx => by rcases List.mem_map.mp hx with ⟨y, hy, rfl⟩; exact hrnonneg y hy)
      _ hmemmap
    have : (3/2 : ℚ) ≤ reduced[a0.ingredientIdx].percentage := by
      rw [← percentageAt_eq reduced _ hi0r, hred0]
      exact hbump0
    linarith
  exact ⟨normalize100_sum reduced hsumpos, normalize100_nonneg reduced hrnonneg⟩

theorem sum_nonneg_all_zero (l : List ℚ) (h : ∀ x ∈ l, 0 ≤ x) (hs : l.sum ≤ 0) :
    ∀ x ∈ l, x = 0 := by
  induction l with
  | nil => intro x hx; cases hx
  | cons a t ih =>
    have hts : 0 ≤ t.sum := List.sum_nonneg (fun x hx => h x (List.mem_cons_of_mem a hx))
    have ha : 0 ≤ a := h a (List.mem_cons_self a t)
    rw [List.sum_cons] at hs
    intro x hx
    rcases List.mem_cons.mp hx with rfl | hx
    · linarith
    · exact ih (fun y hy => h y (List.mem_cons_of_mem a hy)) (by linarith) x hx

theorem map_id_zipWith (f : SolEntry → SolverIngredient → SolEntry)
    (hf : ∀ s ing, (f s ing).id = s.id) :
    ∀ (sol : List SolEntry) (pool : List SolverIngredient), sol.length = pool.length →
      (List.zipWith f sol pool).map (fun s => s.id) = sol.map (fun s => s.id)
  | [], _, _ => rfl
  | s :: sol, [], h => by cases h
  | s :: sol, ing :: pool, h => by
    rw [List.zipWith_cons_cons, List.map_cons, List.map_cons, hf,
      map_id_zipWith f hf sol pool (by simpa using h)]

theorem applyConstraintClamp_map_id (pool : List SolverIngredient) (sol : List SolEntry)
    (hlen : sol.length = pool.length) :
    (applyConstraintClamp pool sol).map (fun s => s.id) = sol.map (fun s => s.id) := by
  rw [applyConstraintClamp]
  apply map_id_zipWith _ _ sol pool hlen
  intro s ing
  split
  · rfl
  · rfl

theorem initialSolution_map_id (input : FeedOptimizationInput) :
    (initialSolution input).map (fun s => s.id) =
      (selectedPool input).map (fun ing => ing.id) := by
  rw [initialSolution, normalize100_map_id, applyConstraintClamp_map_id, List.map_map]
  · rfl
  · rw [List.length_map]

theorem initialSolution_length (input : FeedOptimizationInput) :
    (initialSolution input).length = (selectedPool input).length := by
  have h := initialSolution_map_id input
  have h1 := congrArg List.length h
  rwa [List.length_map, List.length_map] at h1

theorem validInput_all_ingredients {input : FeedOptimizationInput}
    (h : ValidInput input = true) :
    ∀ ing ∈ input.ingredients, validIngredient ing = true := by
  rw [ValidInput] at h
  simp only [Bool.and_eq_true] at h
  exact List.all_eq_true.mp h.1.1.2

theorem validIngredient_maxPercentage {ing : SolverIngredient}
    (h : validIngredient ing = true) {cs : IngredientConstraints}
    (hcs : ing.constraints = some cs) {m : ℚ} (hm : cs.maxPercentage = some m) :
    0 ≤ m := by
  rw [validIngredient, hcs] at h
  simp only [Bool.and_eq_true] at h
  have h2 := h.2
  rw [validIngredientConstraints, hm] at h2
  simp only [Bool.and_eq_true, optPctOk] at h2
  exact of_decide_eq_true h2.1.1.2.1

theorem applyConstraintClamp_nonneg (pool : List SolverIngredient) (sol : List SolEntry)
    (hpool : ∀ ing ∈ pool, validIngredient ing = true)
    (hsol : ∀ s ∈ sol, 0 ≤ s.percentage) :
    ∀ s ∈ applyConstraintClamp pool sol, 0 ≤ s.percentage := by
  intro s hs
  rw [applyConstraintClamp] at hs
  rcases List.mem_iff_getElem.mp hs with ⟨i, hi, rfl⟩
  rw [List.length_zipWith, lt_min_iff] at hi
  rw [List.getElem_zipWith]
  have hsi : 0 ≤ sol[i].percentage := hsol _ (List.getElem_mem hi.1)
  have hvalid : validIngredient pool[i] = true := hpool _ (List.getElem_mem hi.2)
  cases hcs : pool[i].constraints with
  | none => simpa [hcs] using hsi
  | some cs =>
    simp only [hcs]
    have hp1 : 0 ≤ (match cs.minPercentage with
        | some m => max (sol[i].percentage) m
        | none => sol[i].percentage) := by
      cases hmin : cs.minPercentage with
      | none => exact hsi
      | some m => exact le_trans hsi (le_max_left _ _)
    cases hmax : cs.maxPercentage with
    | none => simpa [hmax] using hp1
    | some M =>
      simp only [hmax]
      exact le_min hp1 (validIngredient_maxPercentage hvalid hcs hmax)

theorem initialClamped_nonneg (input : FeedOptimizationInput) (h : ValidInput input = true) :
    ∀ s ∈ applyConstraintClamp (selectedPool input)
      ((selectedPool input).map (fun ing =>
        { id := ing.id, name := ing.name,
          percentage := 100 / ((selectedPool input).length : ℚ) : SolEntry })),
      0 ≤ s.percentage := by
  apply applyConstraintClamp_nonneg
  · exact fun ing hing => validInput_all_ingredients h ing (selectedPool_subset input ing hing)
  · intro s hs
    rcases List.mem_map.mp hs with ⟨ing, hing, rfl⟩
    exact div_nonneg (by norm_num) (Nat.cast_nonneg _)

theorem initialSolution_nonneg (input : FeedOptimizationInput) (h : ValidInput input = true) :
    ∀ s ∈ initialSolution input, 0 ≤ s.percentage := by
  rw [initialSolution]
  exact normalize100_nonneg _ (initialClamped_nonneg input h)

theorem initialSolution_sum (input : FeedOptimizationInput) (h : ValidInput input = true) :
    ((initialSolution input).map (fun s => s.percentage)).sum = 100 ∨
      ∀ s ∈ initialSolution input, s.percentage = 0 := by
  rw [initialSolution]
  by_cases hpos : 0 < ((applyConstraintClamp (selectedPool input)
      ((selectedPool input).map (fun ing =>
        { id := ing.id, name := ing.name,
          percentage := 100 / ((selectedPool input).length : ℚ) : SolEntry }))).map
      (fun s => s.percentage)).sum
  · left
    exact normalize100_sum _ hpos
  · right
    have hnn := initialClamped_nonneg input h
    have hz := sum_nonneg_all_zero _
      (fun x hx => by
        rcases List.mem_map.mp hx with ⟨s, hs, rfl⟩
        exact hnn s hs)
      (not_lt.mp hpos)
    rw [normalize100, if_neg hpos]
    intro s hs
    exact hz _ (List.mem_map.mpr ⟨s, hs, rfl⟩)

theorem refineLoop_succ (pool : List SolverIngredient) (req : NutritionalValues)
    (fuel : Nat) (sol : List SolEntry) (iteration : Nat) :
    refineLoop pool req (fuel + 1) sol iteration =
      if meetsNutritionalRequirements (compositionOf pool sol) req then
        match tryImprove pool req sol with
        | (sol', true) => refineLoop pool req fuel sol' (iteration + 1)
        | (sol', false) => (sol', iteration)
      else
        if (computeAdjustments pool req (compositionOf pool sol) sol).isEmpty then
          (sol, iteration)
        else
          refineLoop pool req fuel
            (applyAdjustments sol (computeAdjustments pool req (compositionOf pool sol) sol))
            (iteration + 1) := rfl

theorem refineLoop_succ_sorted (pool : List SolverIngredient) (req : NutritionalValues)
    (fuel : Nat) (sol : List SolEntry) (iteration : Nat)
    (hp : pool.Pairwise priceLE) (hlen : sol.length = pool.length) :
    refineLoop pool req (fuel + 1) sol iteration =
      if meetsNutritionalRequirements (compositionOf pool sol) req then (sol, iteration)
      else
        if (computeAdjustments pool req (compositionOf pool sol) sol).isEmpty then
          (sol, iteration)
        else
          refineLoop pool req fuel
            (applyAdjustments sol (computeAdjustments pool req (compositionOf pool sol) sol))
            (iteration + 1) := by
  rw [refineLoop_succ]
  by_cases hmeet : meetsNutritionalRequirements (compositionOf pool sol) req = true
  · rw [if_pos hmeet, if_pos hmeet, tryImprove_eq_of_sorted pool req sol hp hlen]
  · rw [if_neg hmeet, if_neg hmeet]

theorem refineLoop_inv (pool : List SolverIngredient) (req : NutritionalValues)
    (hp : pool.Pairwise priceLE) (fuel : Nat) (sol : List SolEntry) (iteration : Nat)
    (hlen : sol.length = pool.length)
    (hn : ∀ s ∈ sol, 0 ≤ s.percentage)
    (hs : (sol.map (fun s => s.percentage)).sum = 100 ∨ ∀ s ∈ sol, s.percentage = 0) :
    (refineLoop pool req fuel sol iteration).1.map (fun s => s.id) =
        sol.map (fun s => s.id) ∧
      (∀ s ∈ (refineLoop pool req fuel sol iteration).1, 0 ≤ s.percentage) ∧
      (((refineLoop pool req fuel sol iteration).1.map (fun s => s.percentage)).sum = 100 ∨
        ∀ s ∈ (refineLoop pool req fuel sol iteration).1, s.percentage = 0) := by
  induction fuel generalizing sol iteration with
  | zero => exact ⟨rfl, hn, hs⟩
  | succ fuel ih =>
    rw [refineLoop_succ_sorted pool req fuel sol iteration hp hlen]
    by_cases hmeet : meetsNutritionalRequirements (compositionOf pool sol) req = true
    · rw [if_pos hmeet]
      exact ⟨rfl, hn, hs⟩
    · rw [if_neg hmeet]
      by_cases hadj : (computeAdjustments pool req (compositionOf pool sol) sol).isEmpty = true
      · rw [if_pos hadj]
        exact ⟨rfl, hn, hs⟩
      · rw [if_neg hadj]
        have hne : computeAdjustments pool req (compositionOf pool sol) sol ≠ [] := by
          simpa using hadj
        have happ := applyAdjustments_sum_nonneg sol _ hn hne
          (computeAdjustments_mem pool req (compositionOf pool sol) sol)
        have hid := applyAdjustments_map_id sol
          (computeAdjustments pool req (compositionOf pool sol) sol)
        have hlen' : (applyAdjustments sol
            (computeAdjustments pool req (compositionOf pool sol) sol)).length =
            pool.length := by
          have h1 := congrArg List.length hid
          rw [List.length_map, List.length_map] at h1
          rw [h1, hlen]
        obtain ⟨h1, h2, h3⟩ := ih _ (iteration + 1) hlen' happ.2 (Or.inl happ.1)
        exact ⟨by rw [h1, hid], h2, h3⟩

theorem finalSolution_inv (input : FeedOptimizationInput) (h : ValidInput input = true) :
    (finalSolution input).map (fun s => s.id) =
        (selectedPool input).map (fun ing => ing.id) ∧
      (∀ s ∈ finalSolution input, 0 ≤ s.percentage) ∧
      (((finalSolution input).map (fun s => s.percentage)).sum = 100 ∨
        ∀ s ∈ finalSolution input, s.percentage = 0) := by
  obtain ⟨h1, h2, h3⟩ := refineLoop_inv (selectedPool input) (solverRequirements input)
    (selectedPool_sorted input) 100 (initialSolution input) 0
    (initialSolution_length input) (initialSolution_nonneg input h)
    (initialSolution_sum input h)
  exact ⟨h1.trans (initialSolution_map_id input), h2, h3⟩

theorem refineLoop_iterations_le (pool : List SolverIngredient) (req : NutritionalValues)
    (fuel : Nat) (sol : List SolEntry) (iteration : Nat) :
    (refineLoop pool req fuel sol iteration).2 ≤ iteration + fuel := by
  induction fuel generalizing sol iteration with
  | zero => exact le_refl _
  | succ fuel ih =>
    rw [refineLoop_succ]
    by_cases hmeet : meetsNutritionalRequirements (compositionOf pool sol) req = true
    · rw [if_pos hmeet]
      rcases htry : tryImprove pool req sol with ⟨sol', b⟩
      cases b
      · show iteration ≤ iteration + (fuel + 1)
        omega
      · refine le_trans (ih sol' (iteration + 1)) ?_
        omega
    · rw [if_neg hmeet]
      by_cases hadj : (computeAdjustments pool req (compositionOf pool sol) sol).isEmpty = true
      · rw [if_pos hadj]
        show iteration ≤ iteration + (fuel + 1)
        omega
      · rw [if_neg hadj]
        refine le_trans (ih _ (iteration + 1)) ?_
        omega

/-- C5: the refinement loop performs at most 100 passes, the solver returns
a `Ration` for every non-empty ingredient list, and the loop exits early as
soon as requirements are unmet and no ingredient qualifies for a bump. -/
theorem solver_terminates_within_bound (input : FeedOptimizationInput) (now : ℤ)
    (h : input.ingredients ≠ []) :
    (solveLeastCostFeedFormulation input now).isOk = true ∧
    solverIterations input ≤ 100 ∧
    (∀ (fuel : Nat) (sol : List SolEntry) (iteration : Nat),
      meetsNutritionalRequirements (compositionOf (selectedPool input) sol)
        (solverRequirements input) = false →
      computeAdjustments (selectedPool input) (solverRequirements input)
        (compositionOf (selectedPool input) sol) sol = [] →
      refineLoop (selectedPool input) (solverRequirements input) fuel sol iteration =
        (sol, iteration)) := by
  refine ⟨?_, ?_, ?_⟩
  · unfold solveLeastCostFeedFormulation
    rw [if_neg (by simpa using h)]
    rfl
  · simpa [solverIterations] using
      refineLoop_iterations_le (selectedPool input) (solverRequirements input) 100
        (initialSolution input) 0
  · intro fuel sol iteration hmeet hadj
    cases fuel with
    | zero => rfl
    | succ fuel =>
      rw [refineLoop_succ, if_neg (by simp [hmeet]), hadj]
      simp

/-- Witness for C5 at a concrete input. -/
theorem solver_terminates_within_bound_witness :
    (solveLeastCostFeedFormulation flatTwoInput 0).isOk = true ∧
    solverIterations flatTwoInput ≤ 100 ∧
    (∀ (fuel : Nat) (sol : List SolEntry) (iteration : Nat),
      meetsNutritionalRequirements (compositionOf (selectedPool flatTwoInput) sol)
        (solverRequirements flatTwoInput) = false →
      computeAdjustments (selectedPool flatTwoInput) (solverRequirements flatTwoInput)
        (compositionOf (selectedPool flatTwoInput) sol) sol = [] →
      refineLoop (selectedPool flatTwoInput) (solverRequirements flatTwoInput) fuel sol
        iteration = (sol, iteration)) :=
  solver_terminates_within_bound flatTwoInput 0 (by decide)

theorem finalizeComponents_length_le (pool : List SolverIngredient) (totalAmount : ℚ)
    (sol : List SolEntry) :
    (finalizeComponents pool totalAmount sol).length ≤ sol.length := by
  rw [finalizeComponents]
  have hb : (buildComponents pool totalAmount sol).length ≤ sol.length := by
    rw [buildComponents, List.length_map]
    exact List.length_filter_le _ _
  split
  · rw [List.length_map]
    exact hb
  · exact hb

theorem finalizeComponents_map_ids (pool : List SolverIngredient) (totalAmount : ℚ)
    (sol : List SolEntry) :
    (finalizeComponents pool totalAmount sol).map (fun c => c.ingredientId) =
      (sol.filter (fun s => (1/100 : ℚ) < s.percentage)).map (fun s => s.id) := by
  have hb : (buildComponents pool totalAmount sol).map (fun c => c.ingredientId) =
      (sol.filter (fun s => (1/100 : ℚ) < s.percentage)).map (fun s => s.id) := by
    rw [buildComponents, List.map_map]
    rfl
  rw [finalizeComponents]
  split
  · rw [List.map_map]
    exact hb
  · exact hb

/-- C6: with `maxIngredients = N` and more than `N` candidates, the ration
has at most `N` components and every component's id belongs to the `N`
cheapest ingredients — the `N`-prefix of the stable ascending price sort
(ties broken by input order). -/
theorem max_ingredients_bounds_components (input : FeedOptimizationInput) (now : ℤ)
    (N : Nat) (hv : ValidInput input = true) (hN : input.maxIngredients = some N)
    (hM : N < input.ingredients.length) :
    match solveLeastCostFeedFormulation input now with
    | .error _ => False
    | .ok r =>
        r.components.length ≤ N ∧
        ∀ c ∈ r.components,
          c.ingredientId ∈
            ((sortByUnitPrice input.ingredients).take N).map (fun ing => ing.id) := by
  have hne : input.ingredients.length ≠ 0 := fun hz =>
    validInput_ingredients_ne_nil hv (List.length_eq_zero.mp hz)
  have hNpos : N ≠ 0 := by
    rw [ValidInput] at hv
    simp only [Bool.and_eq_true] at hv
    have hmax := hv.2
    rw [hN] at hmax
    have := of_decide_eq_true hmax
    omega
  have hpool : selectedPool input = (sortByUnitPrice input.ingredients).take N := by
    rw [selectedPool, hN]
    show (if N = 0 then sortByUnitPrice input.ingredients
      else (sortByUnitPrice input.ingredients).take N) =
        (sortByUnitPrice input.ingredients).take N
    rw [if_neg hNpos]
  have hval : ValidInput input = true := hv
  unfold solveLeastCostFeedFormulation
  rw [if_neg hne]
  obtain ⟨hids, -, -⟩ := finalSolution_inv input hval
  have hlenfs : (finalSolution input).length = (selectedPool input).length := by
    have h1 := congrArg List.length hids
    rwa [List.length_map, List.length_map] at h1
  constructor
  · refine le_trans (finalizeComponents_length_le _ _ _) ?_
    rw [hlenfs, hpool, List.length_take]
    exact min_le_left _ _
  · intro c hc
    have hmap := finalizeComponents_map_ids (selectedPool input) input.totalAmount
      (finalSolution input)
    have hidmem : c.ingredientId ∈
        (finalizeComponents (selectedPool input) input.totalAmount
          (finalSolution input)).map (fun c => c.ingredientId) :=
      List.mem_map.mpr ⟨c, hc, rfl⟩
    rw [hmap] at hidmem
    rcases List.mem_map.mp hidmem with ⟨s, hs, hsid⟩
    have hsmem : s ∈ finalSolution input := List.mem_of_mem_filter hs
    have hin : s.id ∈ (finalSolution input).map (fun s => s.id) :=
      List.mem_map.mpr ⟨s, hsmem, rfl⟩
    rw [hids, hpool] at hin
    rw [← hsid]
    exact hin

/-- Witness for C6 at a concrete input. -/
theorem max_ingredients_bounds_components_witness :
    match solveLeastCostFeedFormulation capOneInput 0 with
    | .error _ => False
    | .ok r =>
        r.components.length ≤ 1 ∧
        ∀ c ∈ r.components,
          c.ingredientId ∈
            ((sortByUnitPrice capOneInput.ingredients).take 1).map (fun ing => ing.id) :=
  max_ingredients_bounds_components capOneInput 0 1 (by with_unfolding_all decide) rfl
    (by decide)

theorem mem_finalizeComponents (pool : List SolverIngredient) (totalAmount : ℚ)
    (sol : List SolEntry) (c : FeedRationComponent)
    (hc : c ∈ finalizeComponents pool totalAmount sol) :
    ∃ c0 ∈ buildComponents pool totalAmount sol,
      c.ingredientId = c0.ingredientId ∧ c.amount = c0.amount ∧ c.cost = c0.cost := by
  simp only [finalizeComponents] at hc
  split at hc
  · rcases List.mem_map.mp hc with ⟨c0, hc0, rfl⟩
    exact ⟨c0, hc0, rfl, rfl, rfl⟩
  · exact ⟨c, hc, rfl, rfl, rfl⟩

theorem mem_buildComponents (pool : List SolverIngredient) (totalAmount : ℚ)
    (sol : List SolEntry) (c0 : FeedRationComponent)
    (hc0 : c0 ∈ buildComponents pool totalAmount sol) :
    ∃ s ∈ sol, (1/100 : ℚ) < s.percentage ∧ c0.ingredientId = s.id ∧
      c0.amount = s.percentage / 100 * totalAmount ∧
      c0.cost = (findIngredient pool s.id).unitPrice * (s.percentage / 100 * totalAmount) := by
  rw [buildComponents] at hc0
  rcases List.mem_map.mp hc0 with ⟨s, hsfil, rfl⟩
  exact ⟨s, List.mem_of_mem_filter hsfil, by simpa using List.of_mem_filter hsfil,
    rfl, rfl, rfl⟩

/-- C2 (amended): for every schema-valid request, every returned component's
`cost` equals `unitPrice × amount` of the id-matching input ingredient —
unconditionally, whether or not the final 0.01 drop removed components —
and, provided that drop removes nothing, `amount = percentage/100 ×
totalAmount` also holds for the returned (renormalized) percentage. When a
component is dropped, the survivors' percentages are rescaled but their
amounts are not, so the amount equation fails (see the counterexample). -/
theorem component_amount_cost_formulas (input : FeedOptimizationInput) (now : ℤ)
    (hv : ValidInput input = true) :
    match solveLeastCostFeedFormulation input now with
    | .error _ => False
    | .ok r =>
        (∀ c ∈ r.components,
          ∃ ing ∈ input.ingredients, c.ingredientId = ing.id ∧
            c.cost = ing.unitPrice * c.amount) ∧
        ((∀ s ∈ finalSolution input, (1/100 : ℚ) < s.percentage) →
          ∀ c ∈ r.components, c.amount = c.percentage / 100 * input.totalAmount) := by
  have hne : input.ingredients.length ≠ 0 := fun hz =>
    validInput_ingredients_ne_nil hv (List.length_eq_zero.mp hz)
  unfold solveLeastCostFeedFormulation
  rw [if_neg hne]
  obtain ⟨hids, hnn, hsum⟩ := finalSolution_inv input hv
  constructor
  · intro c hc
    obtain ⟨c0, hc0, hid, ham, hcost⟩ := mem_finalizeComponents _ _ _ c hc
    obtain ⟨s, hsmem, hspct, hid0, ham0, hcost0⟩ := mem_buildComponents _ _ _ c0 hc0
    have hsid : s.id ∈ (selectedPool input).map (fun ing => ing.id) := by
      rw [← hids]
      exact List.mem_map.mpr ⟨s, hsmem, rfl⟩
    rcases List.mem_map.mp hsid with ⟨ing', hing', hid'⟩
    have hfind : ((selectedPool input).find? (fun ing => ing.id == s.id)).isSome := by
      refine List.find?_isSome.mpr ⟨ing', hing', ?_⟩
      rw [hid']
      simp
    obtain ⟨ing0, hfind0⟩ := Option.isSome_iff_exists.mp hfind
    have hmem0 : ing0 ∈ selectedPool input := List.mem_of_find?_eq_some hfind0
    have hideq : ing0.id = s.id := by simpa using List.find?_some hfind0
    have hfi : findIngredient (selectedPool input) s.id = ing0 := by
      rw [findIngredient, hfind0]
      rfl
    refine ⟨ing0, selectedPool_subset input ing0 hmem0, ?_, ?_⟩
    · rw [hid, hid0]
      exact hideq.symm
    · rw [hcost, hcost0, hfi, ham, ham0]
  · intro hdrop c hc
    have hfilter : (finalSolution input).filter (fun s => (1/100 : ℚ) < s.percentage) =
        finalSolution input :=
      List.filter_eq_self.mpr (fun s hs => decide_eq_true (hdrop s hs))
    have hsum100 : ((finalSolution input).map (fun s => s.percentage)).sum = 100 := by
      rcases hsum with h | hz
      · exact h
      · exfalso
        have hfsnil : finalSolution input = [] := by
          rw [List.eq_nil_iff_forall_not_mem]
          intro s hs
          have hgt := hdrop s hs
          rw [hz s hs] at hgt
          norm_num at hgt
        rw [hfsnil] at hc
        simp [finalizeComponents, buildComponents] at hc
    have hT : ((buildComponents (selectedPool input) input.totalAmount
        (finalSolution input)).map (fun c => c.percentage)).sum = 100 := by
      rw [buildComponents_percentages]
      rw [hfilter]
      exact hsum100
    have hcomps : finalizeComponents (selectedPool input) input.totalAmount
        (finalSolution input) =
        (buildComponents (selectedPool input) input.totalAmount (finalSolution input)).map
          (fun c0 => { c0 with percentage := c0.percentage / 100 * 100 }) := by
      simp only [finalizeComponents]
      rw [hT]
      rw [if_pos (by norm_num : (0:ℚ) < 100)]
    rw [hcomps] at hc
    rcases List.mem_map.mp hc with ⟨c0, hc0, rfl⟩
    rw [buildComponents] at hc0
    rcases List.mem_map.mp hc0 with ⟨s, hsfil, rfl⟩
    show s.percentage / 100 * input.totalAmount =
      s.percentage / 100 * 100 / 100 * input.totalAmount
    ring

/-- Witness for C2's amended theorem at a concrete input (where the no-drop
antecedent also holds, so the amount conjunct is exercised non-vacuously). -/
theorem component_amount_cost_formulas_witness :
    match solveLeastCostFeedFormulation flatTwoInput 0 with
    | .error _ => False
    | .ok r =>
        (∀ c ∈ r.components,
          ∃ ing ∈ flatTwoInput.ingredients, c.ingredientId = ing.id ∧
            c.cost = ing.unitPrice * c.amount) ∧
        ((∀ s ∈ finalSolution flatTwoInput, (1/100 : ℚ) < s.percentage) →
          ∀ c ∈ r.components, c.amount = c.percentage / 100 * flatTwoInput.totalAmount) :=
  component_amount_cost_formulas flatTwoInput 0 (by with_unfolding_all decide)
